import Mathlib

/-!
Verification development for the lock-free-cpp primitive library.

The C++ headers under `src/` are shallowly embedded as pure Lean functions.
All machine integers (`uint64_t`, `std::size_t`, both 64-bit on the target)
are modelled as `Nat` with explicit reduction modulo `2 ^ 64` wherever the
C++ arithmetic can wrap.  Atomic read-modify-write operations are embedded
with their sequential (single-threaded, interference-free) semantics: a
`compare_exchange` whose expected value was just loaded from the same word
always succeeds, and a load returns the current state.  Operations whose
C++ loop can only repeat when another thread intervenes are total functions
here; a branch that sequentially re-reads an unchanged location and retries
forever is mapped to `Option.none` (divergence).
-/

/-- Modulus of 64-bit machine arithmetic (`uint64_t`, `std::size_t`). -/
def UMOD : Nat := 2 ^ 64

/-- Unsigned 64-bit subtraction `a - b` as computed by C++ on `uint64_t`
(wraps around on underflow).  Intended for `a, b < UMOD`. -/
def usub (a b : Nat) : Nat := (a + UMOD - b % UMOD) % UMOD

namespace zero_sticky_counter

/-- State of `LockFreeZeroStickyCounter`: the single `std::atomic<uint64_t>
counter_` word (source `lock_free_zero_sticky_counter.hpp`). -/
abbrev LFState := Nat

/-- Embeds `LockFreeZeroStickyCounter(uint64_t initial_value)`: the word is the
initial value (the default constructor passes 1). -/
def mk (initial : Nat) : LFState := initial % UMOD

/-- Embeds `LockFreeZeroStickyCounter::incrementIfNotZero`, sequential semantics.
The source is a CAS loop: load the counter; while it is nonzero, attempt
`compare_exchange_weak(value, value + 1)`.  With no interference the first
CAS attempt succeeds, so the loop runs at most once.  Returns
(result, new counter word). -/
def incrementIfNotZero (c : LFState) : Bool × LFState :=
  if c = 0 then (false, c) else (true, (c + 1) % UMOD)

/-- Embeds `LockFreeZeroStickyCounter::decrement`:
`counter_.fetch_sub(1) == 1`.  The fetch-subtract wraps modulo `2 ^ 64`;
the call returns true iff the prior word was exactly 1. -/
def decrement (c : LFState) : Bool × LFState :=
  (c == 1, (c + (UMOD - 1)) % UMOD)

/-- Embeds `LockFreeZeroStickyCounter::read`: a relaxed load of the word. -/
def read (c : LFState) : Nat := c

end zero_sticky_counter

namespace wait_free_zero_sticky_counter

/-- Flag bit `zero = 1ull << 63` of `WaitFreeZeroStickyCounter`:
"the counter has latched to zero". -/
def zeroBit : Nat := 2 ^ 63

/-- Flag bit `helped = 1ull << 62`: "a reader helped set the zero flag;
`decrement()` may take credit for it". -/
def helpedBit : Nat := 2 ^ 62

/-- State of `WaitFreeZeroStickyCounter`: the single
`std::atomic<uint64_t> counter_` word. -/
abbrev WFState := Nat

/-- Embeds `WaitFreeZeroStickyCounter(uint64_t initial_value)` (the default
constructor passes 1). -/
def mk (initial : Nat) : WFState := initial % UMOD

/-- Embeds `WaitFreeZeroStickyCounter::incrementIfNotZero`:
`(counter_.fetch_add(1) & zero) == 0`.  The fetch-add is unconditional and
wraps modulo `2 ^ 64`; the result inspects only the `zero` flag of the
prior word. -/
def incrementIfNotZero (w : WFState) : Bool × WFState :=
  (w &&& zeroBit == 0, (w + 1) % UMOD)

/-- Embeds `WaitFreeZeroStickyCounter::decrement`, sequential semantics.
`fetch_sub(1)` is unconditional; if the prior word was exactly 1 the method
loads the word again (`val`, sequentially the value just after the
subtraction) and attempts `compare_exchange_strong(val, zero)`.  With no
interference the word still equals `val`, so this CAS succeeds; the
helped-flag fallback (`exchange(zero)`) is unreachable sequentially but is
kept here as written in the source. -/
def decrement (w : WFState) : Bool × WFState :=
  let after := (w + (UMOD - 1)) % UMOD
  if w = 1 then
    let val := after
    if after = val then (true, zeroBit)
    else if val &&& helpedBit != 0 then
      (after &&& helpedBit != 0, zeroBit)
    else (false, after)
  else (false, after)

/-- Embeds `WaitFreeZeroStickyCounter::read`, sequential semantics.
Load the word `val`; if it is the plain value 0 (a decrement is caught
mid-transition) attempt `compare_exchange_strong(val, zero | helped)`
— sequentially this succeeds — and report 0.  Otherwise report 0 if the
`zero` flag is set, else the word itself.  Returns (result, new word). -/
def read (w : WFState) : Nat × WFState :=
  if w = 0 then (0, zeroBit ||| helpedBit)
  else if w &&& zeroBit != 0 then (0, w)
  else (w, w)

end wait_free_zero_sticky_counter

/-- An operation on a sticky counter (shared by both variants). -/
inductive COp : Type
  | inc : COp
  | dec : COp
  | readOp : COp
deriving DecidableEq, Repr

/-- The observable outcome of one sticky-counter operation: a Bool for
`incrementIfNotZero`/`decrement`, a Nat for `read`. -/
inductive CRes : Type
  | rb : Bool → CRes
  | rn : Nat → CRes
deriving DecidableEq, Repr

/-- One step of `LockFreeZeroStickyCounter` on an operation. -/
def lfStep (c : zero_sticky_counter.LFState) (op : COp) :
    CRes × zero_sticky_counter.LFState :=
  match op with
  | .inc => let r := zero_sticky_counter.incrementIfNotZero c; (.rb r.1, r.2)
  | .dec => let r := zero_sticky_counter.decrement c; (.rb r.1, r.2)
  | .readOp => (.rn (zero_sticky_counter.read c), c)

/-- One step of `WaitFreeZeroStickyCounter` on an operation. -/
def wfStep (w : wait_free_zero_sticky_counter.WFState) (op : COp) :
    CRes × wait_free_zero_sticky_counter.WFState :=
  match op with
  | .inc => let r := wait_free_zero_sticky_counter.incrementIfNotZero w; (.rb r.1, r.2)
  | .dec => let r := wait_free_zero_sticky_counter.decrement w; (.rb r.1, r.2)
  | .readOp => let r := wait_free_zero_sticky_counter.read w; (.rn r.1, r.2)

/-- Run a sequence of operations through a step function, collecting the
outcome of each operation in order. -/
def runOut {σ : Type} (step : σ → COp → CRes × σ) : σ → List COp → List CRes
  | _, [] => []
  | s, op :: ops => let r := step s op; r.1 :: runOut step r.2 ops

/-- Final state after a sequence of operations. -/
def runState {σ : Type} (step : σ → COp → CRes × σ) : σ → List COp → σ
  | s, [] => s
  | s, op :: ops => runState step (step s op).2 ops

/-- Outcome demanded of an operation once a counter has latched to zero:
reads report 0, increments report failure.  (Sequences considered below
contain no `dec`; its row is only there to make the function total.) -/
def stuckOut : COp → CRes
  | .inc => .rb false
  | .dec => .rb false
  | .readOp => .rn 0

namespace seq_lock

/-- State of `SeqLock<T>` (source `seq_lock.hpp`): the protected `value_`
and the `std::atomic<std::size_t> seq_` counter (64-bit on the target). -/
structure SeqLock (α : Type) where
  value : α
  seq : Nat
deriving DecidableEq, Repr

/-- Embeds `SeqLock()` : `value_(T()), seq_(0)` — default value, sequence 0. -/
def init (α : Type) [Inhabited α] : SeqLock α := ⟨default, 0⟩

/-- The intermediate ("torn") sequence value stored by `write` before the
value store: `seq_.store(s1 + 1, relaxed)` where `s1` is the loaded
sequence. -/
def writeMid (s : SeqLock α) : Nat := (s.seq + 1) % UMOD

/-- Embeds `SeqLock::write(value)`: load `s1 = seq_`; store `s1 + 1` (odd, torn);
store the value; store `s1 + 2` (even, published).  The state after the
complete call. -/
def write (s : SeqLock α) (v : α) : SeqLock α :=
  { value := v, seq := (s.seq + 2) % UMOD }

/-- One iteration of the `SeqLock::read` loop, sequential semantics: load
`s1 = seq_` (acquire), copy `value_`, load `s2 = seq_` (relaxed; with no
interference `s2 = s1`), and return the copy iff `s1 == s2 && s1 % 2 == 0`.
`none` means this iteration yields and retries — sequentially the state
never changes, so the loop then spins forever. -/
def readOnce (s : SeqLock α) : Option α :=
  let s1 := s.seq
  let v := s.value
  let s2 := s.seq
  if s1 = s2 && s1 % 2 = 0 then some v else none

/-- Apply a list of complete `write` calls in order. -/
def runWrites (s : SeqLock α) : List α → SeqLock α
  | [] => s
  | v :: vs => runWrites (write s v) vs

end seq_lock

namespace spsc_queue

/-- Embeds `SPSCQueue::SPSCQueue(capacity)` throws `std::invalid_argument` iff
`capacity_ & (capacity_ - 1)` is nonzero, where `capacity_ - 1` is
computed on `uint64_t` (for capacity 0 it wraps to `2 ^ 64 - 1`).
The `assert(capacity_ > 0 && ...)` in the constructor is a debug-build
abort, not a thrown error, and is not part of this function. -/
def ctorThrows (capacity : Nat) : Bool :=
  capacity &&& ((capacity + (UMOD - 1)) % UMOD) != 0

/-- State of `SPSCQueue<T>` instantiated at `T = int` (trivially copyable;
slot contents are modelled as the values last constructed there, with 0
standing for uninitialized storage that is never read before
construction). -/
structure SPSCQueue where
  capacity : Nat
  ring : List Nat
  head : Nat
  cachedHead : Nat
  tail : Nat
  cachedTail : Nat
deriving DecidableEq, Repr

/-- A freshly constructed `SPSCQueue` with the given capacity: all
counters and caches start at 0, the ring is uninitialized storage. -/
def mk (capacity : Nat) : SPSCQueue :=
  ⟨capacity, List.replicate capacity 0, 0, 0, 0, 0⟩

/-- Embeds `SPSCQueue::size(head, tail) = tail - head` on `uint64_t`. -/
def sizeOf (head tail : Nat) : Nat := usub tail head

/-- Embeds `SPSCQueue::index(pos) = pos & (capacity_ - 1)` (capacity a power of
two; `capacity_ - 1` does not wrap since the constructor path reaching
operations has capacity > 0). -/
def index (q : SPSCQueue) (pos : Nat) : Nat := pos &&& (q.capacity - 1)

/-- Embeds `SPSCQueue::emplace(args...)` (also the body of both `push`
overloads), producer side: load `tail_`; if `full(cached_head_, tail)`
refresh `cached_head_` from `head_` and re-check, returning false if still
full; otherwise construct the element at `ring_[index(tail)]` and store
`tail + 1` to `tail_` (release). -/
def emplace (q : SPSCQueue) (v : Nat) : Bool × SPSCQueue :=
  let t := q.tail
  let q1 := if sizeOf q.cachedHead t == q.capacity
            then { q with cachedHead := q.head } else q
  if sizeOf q1.cachedHead t == q1.capacity then (false, q1)
  else (true, { q1 with ring := q1.ring.set (index q1 t) v,
                        tail := (t + 1) % UMOD })

/-- Embeds `SPSCQueue::front()`, consumer side: load `head_` (acquire); if
`empty(head, cached_tail_)` refresh `cached_tail_` from `tail_` and
re-check, returning nullptr if still empty; otherwise return a pointer to
`ring_[index(head)]` (modelled as the slot's value). -/
def front (q : SPSCQueue) : Option Nat × SPSCQueue :=
  let h := q.head
  let q1 := if sizeOf h q.cachedTail == 0
            then { q with cachedTail := q.tail } else q
  if sizeOf h q1.cachedTail == 0 then (none, q1)
  else (some (q1.ring.getD (index q1 h) 0), q1)

/-- Embeds `SPSCQueue::pop()`, consumer side: destroy the element at
`ring_[index(head)]` (for `T = int` the destructor is trivial and the
bytes are untouched) and store `head + 1` to `head_` (release).
Precondition (debug assert in the source): a preceding `front` returned
non-null. -/
def pop (q : SPSCQueue) : SPSCQueue :=
  { q with head := (q.head + 1) % UMOD }

end spsc_queue

namespace mpmc_queue

/-- Embeds `MPMCQueue::MPMCQueue(capacity)` throws `std::invalid_argument` iff
`capacity_ == 0 || (capacity_ & (capacity_ - 1))`. -/
def ctorThrows (capacity : Nat) : Bool :=
  capacity == 0 || capacity &&& ((capacity + (UMOD - 1)) % UMOD) != 0

/-- State of `MPMCQueue<T>` instantiated at `T = int`.

Each slot of the ring carries its sequence number `seq` and its plain
member `T storage`.  `storage` objects are default-constructed when the
constructor placement-news each `Slot`, so `alive i` tracks whether slot
`i` currently holds a live (constructed) `T` object in the C++ object
model: `new (&slot.storage) T(...)` in `emplace` (re)begins a lifetime,
and only an explicit `storage.~T()` or the implicit member destruction
inside `slot.~Slot()` ends one. -/
structure MPMCQueue where
  capacity : Nat
  seqs : List Nat
  store : List Nat
  alive : List Bool
  head : Nat
  tail : Nat
deriving DecidableEq, Repr

/-- A freshly constructed `MPMCQueue`: for each slot `i`, a
default-constructed `Slot` (live default `storage`) with `seq = i`;
`head_ = tail_ = 0`. -/
def mk (capacity : Nat) : MPMCQueue :=
  ⟨capacity, List.range capacity, List.replicate capacity 0,
   List.replicate capacity true, 0, 0⟩

/-- Ring index of a position: `pos & (capacity_ - 1)`. -/
def index (q : MPMCQueue) (pos : Nat) : Nat := pos &&& (q.capacity - 1)

/-- Embeds `MPMCQueue::emplace(args...)` (also the body of both `push`
overloads), sequential semantics.  Load `pos = tail_`; read the slot's
`seq` and compare with `pos`:
* `seq == pos`: the CAS on `tail_` succeeds (no interference), the element
  is constructed in the slot's storage and `seq = pos + 1` is published;
* `seq < pos`: the queue is full, return false;
* `seq > pos`: the source reloads `pos` from the unchanged `tail_` and
  repeats, so a single thread spins forever — modelled as `none`. -/
def emplace (q : MPMCQueue) (v : Nat) : Option (Bool × MPMCQueue) :=
  let pos := q.tail
  let i := index q pos
  let s := q.seqs.getD i 0
  if s = pos then
    some (true, { q with tail := (pos + 1) % UMOD,
                         store := q.store.set i v,
                         alive := q.alive.set i true,
                         seqs := q.seqs.set i ((pos + 1) % UMOD) })
  else if s < pos then some (false, q)
  else none

/-- Embeds `MPMCQueue::pop(out)`, sequential semantics.  Load `pos = head_`; read
the slot's `seq` and compare with `pos + 1`:
* `seq == pos + 1`: the CAS on `head_` succeeds, `out = std::move(slot.storage)`
  (for `T = int` a copy; the slot's storage keeps its live moved-from
  object and no destructor runs) and `seq = pos + capacity` is published.
  The value written to `out` is returned as the middle component;
* `seq < pos + 1`: the queue is empty, return false (`out` untouched);
* `seq > pos + 1`: the source reloads `pos` from the unchanged `head_` and
  repeats, so a single thread spins forever — modelled as `none`. -/
def pop (q : MPMCQueue) : Option (Bool × Option Nat × MPMCQueue) :=
  let pos := q.head
  let i := index q pos
  let s := q.seqs.getD i 0
  let p1 := (pos + 1) % UMOD
  if s = p1 then
    some (true, some (q.store.getD i 0),
          { q with head := p1,
                   seqs := q.seqs.set i ((pos + q.capacity) % UMOD) })
  else if s < p1 then some (false, none, q)
  else none

/-- Number of times `~MPMCQueue()` runs `T::~T()` on slot `i`'s storage:
once explicitly when `slot.seq == i + 1`, and once more unconditionally
because `slot.~Slot()` destroys the plain data member `T storage`. -/
def dtorDestroyCount (q : MPMCQueue) (i : Nat) : Nat :=
  (if q.seqs.getD i 0 = i + 1 then 1 else 0) + 1

end mpmc_queue

/-- A capacity-2 `MPMCQueue` holding one element, 42, at position 0: the
state reached from `mk 2` by one successful `emplace 42`. -/
def mpmcSampleFull : mpmc_queue.MPMCQueue :=
  ⟨2, [1, 1], [42, 0], [true, true], 0, 1⟩

/-- The state reached from `mpmcSampleFull` by one successful `pop`. -/
def mpmcSamplePopped : mpmc_queue.MPMCQueue :=
  ⟨2, [2, 1], [42, 0], [true, true], 1, 1⟩

section Helpers

/-- Isolating bit 63 of a 64-bit word: `w & (1 << 63)` is `2 ^ 63` when the
bit is set and 0 otherwise. -/
theorem land_pow63 (w : Nat) (hw : w < UMOD) :
    w &&& 2 ^ 63 = if 2 ^ 63 ≤ w then 2 ^ 63 else 0 := by
  have h := Nat.and_two_pow w 63
  rw [Nat.testBit_to_div_mod] at h
  have hw' : w < 2 ^ 64 := hw
  by_cases hc : 2 ^ 63 ≤ w
  · have hd : w / 2 ^ 63 % 2 = 1 := by omega
    rw [hd] at h
    simp at h
    rw [if_pos hc]
    simpa using h
  · have hd : w / 2 ^ 63 % 2 = 0 := by omega
    rw [hd] at h
    simp at h
    rw [if_neg hc]
    simpa using h

/-- Unsigned 64-bit subtraction agrees with `Nat` subtraction when it does
not underflow. -/
theorem usub_eq (a b : Nat) (hb : b ≤ a) (ha : a < UMOD) :
    usub a b = a - b := by
  have hblt : b < UMOD := lt_of_le_of_lt hb ha
  unfold usub
  rw [Nat.mod_eq_of_lt hblt]
  have h1 : a + UMOD - b = (a - b) + UMOD := by omega
  rw [h1, Nat.add_mod_right, Nat.mod_eq_of_lt (by omega)]

end Helpers

/-- Claim C1: the claim asserts that the `SPSCQueue` constructor throws
`InvalidCapacity` iff the capacity is 0 or not a power of two, and in
particular that capacity 0 is rejected.  The code evaluates to the
opposite at capacity 0: `0 & (0 - 1) = 0` on `uint64_t`, so `SPSCQueue(0)`
throws nothing (only a debug-build `assert` fires), while `MPMCQueue(0)`
does throw thanks to its explicit `capacity_ == 0` test.  Nonzero
non-powers of two are rejected by both. -/
theorem spsc_ctor_accepts_capacity_zero :
    spsc_queue.ctorThrows 0 = false ∧
    mpmc_queue.ctorThrows 0 = true ∧
    spsc_queue.ctorThrows 3 = true ∧
    spsc_queue.ctorThrows 4 = false := by
  refine ⟨by decide, by decide, by decide, by decide⟩

/-- Claim C2: the claim asserts that destroying an `MPMCQueue` destroys
every logically present element exactly once.  Concretely, after one
successful `emplace` into a fresh capacity-1 queue the single element
(position 0, with `head = 0 ≤ 0 < 1 = tail`) sits in slot 0 with
`seq = 1 = 0 + 1`, and `~MPMCQueue()` runs its destructor twice: once via
the explicit `slot.storage.~T()` taken because `seq == i + 1`, and once
more inside `slot.~Slot()`, which destroys the plain data member
`T storage` again. -/
theorem mpmc_dtor_double_destroys_present_element :
    (mpmc_queue.emplace (mpmc_queue.mk 1) 42).map
      (fun r => (r.1, r.2.head, r.2.tail, mpmc_queue.dtorDestroyCount r.2 0)) =
    some (true, 0, 1, 2) := by decide

/-- Claim C5: the claim asserts that every queue of capacity C accepts
exactly C pushes, fails the (C+1)-th, and then pops the C values in order.
For `MPMCQueue` of capacity 1 the code violates this: after `emplace 7`
fills the queue, slot 0 has `seq = 1`, which equals the producer position
`pos = 1` of the next push, so `emplace 8` also returns true and
overwrites the un-popped 7 (the store ends up `[8]`).  The subsequent
`pop` then reads `seq = 2 > pos + 1 = 1` forever and never returns
(modelled as `none`). -/
theorem mpmc_capacity_one_overwrites_and_pop_diverges :
    mpmc_queue.emplace (mpmc_queue.mk 1) 7 =
      some (true, ⟨1, [1], [7], [true], 0, 1⟩) ∧
    mpmc_queue.emplace ⟨1, [1], [7], [true], 0, 1⟩ 8 =
      some (true, ⟨1, [2], [8], [true], 0, 2⟩) ∧
    mpmc_queue.pop ⟨1, [2], [8], [true], 0, 2⟩ = none := by
  refine ⟨by decide, by decide, by decide⟩

/-- Claim C3 (counterexample): the claim asserts that a successful
`MPMCQueue::pop(out)` destroys the claimed element in place in the slot.
After `emplace 42` into a fresh capacity-2 queue, `pop` returns true with
`out = 42`, yet the post state keeps slot 0's storage object alive
(`alive = [true, true]`) and still holding the value 42
(`store = [42, 0]`): the source's pop only move-assigns
(`out = std::move(slot.storage)`) and contains no destructor call. -/
theorem mpmc_pop_leaves_live_element :
    (mpmc_queue.emplace (mpmc_queue.mk 2) 42).bind (fun r1 => mpmc_queue.pop r1.2) =
    some (true, some 42,
      ⟨2, [2, 1], [42, 0], [true, true], 1, 1⟩) := by decide

/-- Claim C4 (counterexample): the claim asserts that for every operation
sequence, once `read()` has returned 0 all later `read()` return 0 and all
later `incrementIfNotZero()` return false.  Starting both counters at
their default value 1 and running decrement, read, decrement, read,
incrementIfNotZero: the second `read` returns 0, but the extra `decrement`
wraps the lock-free word to `2 ^ 64 - 1` and strips the wait-free ZERO
flag to `2 ^ 63 - 1`, after which `read` returns those nonzero values and
`incrementIfNotZero` returns true on both counters. -/
theorem sticky_counters_unlatch_after_decrement :
    runOut lfStep (zero_sticky_counter.mk 1)
        [.dec, .readOp, .dec, .readOp, .inc] =
      [.rb true, .rn 0, .rb false, .rn (UMOD - 1), .rb true] ∧
    runOut wfStep (wait_free_zero_sticky_counter.mk 1)
        [.dec, .readOp, .dec, .readOp, .inc] =
      [.rb true, .rn 0, .rb false, .rn (2 ^ 63 - 1), .rb true] := by
  refine ⟨by decide, by decide⟩

/-- Claim C6 (counterexample): the claim asserts that every value returned
by `SeqLock::read()` was previously passed to `write()`, expressly
including a read performed before any write.  On a freshly constructed
`SeqLock<int>` (no writes at all) `read()` returns the default-initialized
value 0, which is not among the (empty list of) written values. -/
theorem seqlock_initial_read_default_unwritten :
    seq_lock.readOnce (seq_lock.init Nat) = some 0 ∧
    (0 : Nat) ∉ ([] : List Nat) := by
  refine ⟨by decide, by decide⟩

/-- Claim C10: a `WaitFreeZeroStickyCounter` constructed with explicit
initial value 0 is not latched: the first `incrementIfNotZero()` performs
`fetch_add(1)` on the word 0, whose ZERO flag is clear, so it returns true
and leaves the word 1, and `read()` then returns 1.  By contrast, after a
zero reached by `decrement()` from 1 the word is `ZERO` (bit 63), and
`incrementIfNotZero()` returns false. -/
theorem wf_initial_zero_not_sticky :
    wait_free_zero_sticky_counter.incrementIfNotZero
        (wait_free_zero_sticky_counter.mk 0) = (true, 1) ∧
    (wait_free_zero_sticky_counter.read 1).1 = 1 ∧
    (wait_free_zero_sticky_counter.decrement 1).2 =
      wait_free_zero_sticky_counter.zeroBit ∧
    (wait_free_zero_sticky_counter.incrementIfNotZero
        (wait_free_zero_sticky_counter.decrement 1).2).1 = false := by
  refine ⟨by decide, by decide, by decide, by decide⟩

/-- Claim C7: `LockFreeZeroStickyCounter::decrement()` performs an atomic
fetch-subtract by 1 on the 64-bit word (wrapping: from 0 it yields
`2 ^ 64 - 1`, otherwise the predecessor) and returns true if and only if
the value immediately before the call was exactly 1. -/
theorem lf_decrement_true_iff_prior_one (c : Nat) (hc : c < UMOD) :
    ((zero_sticky_counter.decrement c).1 = true ↔ c = 1) ∧
    (zero_sticky_counter.decrement c).2 = (if c = 0 then UMOD - 1 else c - 1) := by
  have hU : (0 : Nat) < UMOD := by decide
  constructor
  · simp [zero_sticky_counter.decrement]
  · simp only [zero_sticky_counter.decrement]
    by_cases h0 : c = 0
    · subst h0
      rw [if_pos rfl, Nat.zero_add, Nat.mod_eq_of_lt (by omega)]
    · rw [if_neg h0]
      have h1 : c + (UMOD - 1) = (c - 1) + UMOD := by omega
      rw [h1, Nat.add_mod_right, Nat.mod_eq_of_lt (by omega)]

/-- Witness for C7 at the concrete prior value 1. -/
theorem lf_decrement_true_iff_prior_one_witness :
    (((zero_sticky_counter.decrement 1).1 = true ↔ (1 : Nat) = 1) ∧
     (zero_sticky_counter.decrement 1).2 = (if (1 : Nat) = 0 then UMOD - 1 else 1 - 1)) :=
  lf_decrement_true_iff_prior_one 1 (by decide)

/-- Claim C8: `WaitFreeZeroStickyCounter::incrementIfNotZero()` performs
an unconditional fetch-add by 1 on the shared word (the new word is
`(w + 1) mod 2 ^ 64` regardless of flags) and returns true if and only if
the prior word had the ZERO flag — bit 63 — clear. -/
theorem wf_increment_unconditional_fetch_add (w : Nat) (hw : w < UMOD) :
    ((wait_free_zero_sticky_counter.incrementIfNotZero w).1 = true ↔
      w.testBit 63 = false) ∧
    (wait_free_zero_sticky_counter.incrementIfNotZero w).2 = (w + 1) % UMOD := by
  refine ⟨?_, rfl⟩
  have hw' : w < 2 ^ 64 := hw
  show ((w &&& 2 ^ 63 == 0) = true ↔ w.testBit 63 = false)
  rw [land_pow63 w hw, Nat.testBit_to_div_mod]
  by_cases hc : 2 ^ 63 ≤ w
  · rw [if_pos hc]
    have hd : w / 2 ^ 63 % 2 = 1 := by omega
    simp only [decide_eq_false_iff_not]
    constructor
    · intro hfalse
      exact absurd hfalse (by decide)
    · intro hnot
      exact absurd hd (by omega)
  · rw [if_neg hc]
    have hd : w / 2 ^ 63 % 2 = 0 := by omega
    simp only [decide_eq_false_iff_not]
    constructor
    · intro _
      omega
    · intro _
      decide

/-- Witness for C8 at the concrete prior word 1. -/
theorem wf_increment_unconditional_fetch_add_witness :
    (((wait_free_zero_sticky_counter.incrementIfNotZero 1).1 = true ↔
       Nat.testBit 1 63 = false) ∧
     (wait_free_zero_sticky_counter.incrementIfNotZero 1).2 = (1 + 1) % UMOD) :=
  wf_increment_unconditional_fetch_add 1 (by decide)

/-- Sequence counter invariant of `SeqLock`: applied to a quiescent state
with an even, in-range counter, any list of complete writes leaves the
counter even and in range (each write adds 2 modulo `2 ^ 64`, which is
even). -/
theorem seqlock_runWrites_seq (ws : List Nat) :
    ∀ s : seq_lock.SeqLock Nat, s.seq % 2 = 0 → s.seq < UMOD →
      (seq_lock.runWrites s ws).seq % 2 = 0 ∧
      (seq_lock.runWrites s ws).seq < UMOD := by
  induction ws with
  | nil => intro s h1 h2; exact ⟨h1, h2⟩
  | cons v vs ih =>
    intro s h1 h2
    apply ih
    · show ((s.seq + 2) % UMOD) % 2 = 0
      rw [Nat.mod_mod_of_dvd _ (by decide : 2 ∣ UMOD)]
      omega
    · exact Nat.mod_lt _ (by decide)

/-- Claim C9: the `SeqLock` sequence counter starts at 0; after any list
of complete writes it is even (and in 64-bit range); from an even in-range
state the intermediate value stored while the value write is in progress
is odd; a complete `write` advances the counter by exactly 2 modulo
`2 ^ 64` and installs the value; and a `read` iteration returns its copy
exactly when its two counter loads agree (sequentially automatic) and the
counter is even. -/
theorem seqlock_sequence_protocol :
    (seq_lock.init Nat).seq = 0 ∧
    (∀ ws : List Nat, (seq_lock.runWrites (seq_lock.init Nat) ws).seq % 2 = 0) ∧
    (∀ s : seq_lock.SeqLock Nat, s.seq % 2 = 0 → s.seq < UMOD →
        seq_lock.writeMid s % 2 = 1) ∧
    (∀ (s : seq_lock.SeqLock Nat) (v : Nat),
        (seq_lock.write s v).seq = (s.seq + 2) % UMOD ∧
        (seq_lock.write s v).value = v) ∧
    (∀ s : seq_lock.SeqLock Nat, (seq_lock.readOnce s).isSome ↔ s.seq % 2 = 0) := by
  refine ⟨rfl, ?_, ?_, fun s v => ⟨rfl, rfl⟩, ?_⟩
  · intro ws
    exact (seqlock_runWrites_seq ws _ (by decide) (by decide)).1
  · intro s h1 h2
    unfold seq_lock.writeMid
    have hU : UMOD % 2 = 0 := by decide
    have hlt : s.seq + 1 < UMOD := by omega
    rw [Nat.mod_eq_of_lt hlt]
    omega
  · intro s
    unfold seq_lock.readOnce
    by_cases h : s.seq % 2 = 0
    · simp [h]
    · simp [h]

/-- Witness for C9: from the initial state (sequence 0, even) the torn
intermediate sequence value is 1, an odd number. -/
theorem seqlock_sequence_protocol_witness :
    seq_lock.writeMid (seq_lock.init Nat) % 2 = 1 :=
  seqlock_sequence_protocol.2.2.1 (seq_lock.init Nat) (by decide) (by decide)

/-- A successful `SeqLock` read iteration returns exactly the stored
value. -/
theorem seqlock_readOnce_value {α : Type} (s : seq_lock.SeqLock α) (v : α)
    (h : seq_lock.readOnce s = some v) : v = s.value := by
  simp only [seq_lock.readOnce] at h
  split at h
  · exact (Option.some.inj h).symm
  · exact absurd h (by simp)

/-- The value held by a `SeqLock` after a list of complete writes is the
starting value or one of the written values. -/
theorem seqlock_runWrites_value (ws : List Nat) :
    ∀ s : seq_lock.SeqLock Nat,
      (seq_lock.runWrites s ws).value = s.value ∨
      (seq_lock.runWrites s ws).value ∈ ws := by
  induction ws with
  | nil => intro s; exact Or.inl rfl
  | cons v vs ih =>
    intro s
    simp only [seq_lock.runWrites]
    rcases ih (seq_lock.write s v) with h | h
    · right
      rw [h]
      exact List.mem_cons_self _ _
    · right
      exact List.mem_cons_of_mem _ h

/-- Claim C6 (amended): every value returned by `SeqLock::read()` is the
default-initialized value (for reads that observe the state before any
write) or a value previously passed to `write()`. -/
theorem seqlock_read_default_or_written (ws : List Nat) (v : Nat)
    (h : seq_lock.readOnce (seq_lock.runWrites (seq_lock.init Nat) ws) = some v) :
    v = (seq_lock.init Nat).value ∨ v ∈ ws := by
  have hv := seqlock_readOnce_value _ _ h
  rcases seqlock_runWrites_value ws (seq_lock.init Nat) with h1 | h1
  · left
    rw [hv, h1]
  · right
    rw [hv]
    exact h1

/-- Witness for C6: after the single write of 5, a read returns 5, which
is among the written values. -/
theorem seqlock_read_default_or_written_witness :
    (5 : Nat) = (seq_lock.init Nat).value ∨ (5 : Nat) ∈ [5] :=
  seqlock_read_default_or_written [5] 5 (by decide)

/-- Claim C3 (amended): when `MPMCQueue::pop(out)` returns true it moves
the claimed slot's element into `out` (for trivially copyable `T` a copy
of the stored value), publishes `seq = pos + capacity` to release the slot
for the next cycle and advances `head`, but it destroys nothing: the
slot's storage object stays alive with its (moved-from) value, and the
ring contents are unchanged. -/
theorem mpmc_pop_moves_without_destroy (q q' : mpmc_queue.MPMCQueue)
    (out : Option Nat)
    (h : mpmc_queue.pop q = some (true, out, q')) :
    out = some (q.store.getD (mpmc_queue.index q q.head) 0) ∧
    q'.store = q.store ∧
    q'.alive = q.alive ∧
    q'.seqs = q.seqs.set (mpmc_queue.index q q.head)
                ((q.head + q.capacity) % UMOD) ∧
    q'.head = (q.head + 1) % UMOD ∧
    q'.tail = q.tail ∧
    q'.capacity = q.capacity := by
  simp only [mpmc_queue.pop] at h
  split at h
  · simp only [Option.some.injEq, Prod.mk.injEq] at h
    obtain ⟨-, h2, h3⟩ := h
    subst h2
    subst h3
    exact ⟨rfl, rfl, rfl, rfl, rfl, rfl, rfl⟩
  · split at h
    · simp at h
    · simp at h

/-- Witness for C3 at the concrete capacity-2 queue holding 42. -/
theorem mpmc_pop_moves_without_destroy_witness :
    (some 42 : Option Nat) =
      some (mpmcSampleFull.store.getD
        (mpmc_queue.index mpmcSampleFull mpmcSampleFull.head) 0) ∧
    mpmcSamplePopped.store = mpmcSampleFull.store ∧
    mpmcSamplePopped.alive = mpmcSampleFull.alive ∧
    mpmcSamplePopped.seqs = mpmcSampleFull.seqs.set
      (mpmc_queue.index mpmcSampleFull mpmcSampleFull.head)
      ((mpmcSampleFull.head + mpmcSampleFull.capacity) % UMOD) ∧
    mpmcSamplePopped.head = (mpmcSampleFull.head + 1) % UMOD ∧
    mpmcSamplePopped.tail = mpmcSampleFull.tail ∧
    mpmcSamplePopped.capacity = mpmcSampleFull.capacity :=
  mpmc_pop_moves_without_destroy mpmcSampleFull mpmcSamplePopped (some 42)
    (by decide)

/-- At the latched word 0 the lock-free counter is permanently stuck for
decrement-free operation sequences: reads report 0 and increments fail. -/
theorem lf_latched_stuck (ops : List COp) (hnd : COp.dec ∉ ops) :
    runOut lfStep 0 ops = ops.map stuckOut := by
  induction ops with
  | nil => rfl
  | cons op ops ih =>
    have hop : op ≠ COp.dec := fun hx => hnd (hx ▸ List.mem_cons_self _ _)
    have hnd' : COp.dec ∉ ops := fun hx => hnd (List.mem_cons_of_mem _ hx)
    cases op with
    | inc =>
      simpa [runOut, lfStep, zero_sticky_counter.incrementIfNotZero,
             stuckOut] using ih hnd'
    | dec => exact absurd rfl hop
    | readOp =>
      simpa [runOut, lfStep, zero_sticky_counter.read, stuckOut] using ih hnd'

/-- With the ZERO flag set and no intervening overflow of the 64-bit word,
the wait-free counter is stuck for decrement-free operation sequences:
reads report 0 and increments fail (each increment still adds 1 to the
word, so the word must stay below `2 ^ 64`). -/
theorem wf_latched_stuck (ops : List COp) :
    ∀ w : Nat, 2 ^ 63 ≤ w → w + ops.length < UMOD → COp.dec ∉ ops →
      runOut wfStep w ops = ops.map stuckOut := by
  induction ops with
  | nil => intro w _ _ _; rfl
  | cons op ops ih =>
    intro w h63 hb hnd
    have hlen : (op :: ops).length = ops.length + 1 := rfl
    have hw : w < UMOD := by omega
    have hop : op ≠ COp.dec := fun hx => hnd (hx ▸ List.mem_cons_self _ _)
    have hnd' : COp.dec ∉ ops := fun hx => hnd (List.mem_cons_of_mem _ hx)
    cases op with
    | inc =>
      have hland : w &&& wait_free_zero_sticky_counter.zeroBit = 2 ^ 63 := by
        show w &&& 2 ^ 63 = 2 ^ 63
        rw [land_pow63 w hw, if_pos h63]
      have hmod : (w + 1) % UMOD = w + 1 := Nat.mod_eq_of_lt (by omega)
      have hbeq : ((2 : Nat) ^ 63 == 0) = false := by decide
      simp only [runOut, wfStep, wait_free_zero_sticky_counter.incrementIfNotZero,
                 hland, hmod, hbeq, stuckOut, List.map_cons]
      exact congrArg (List.cons _) (ih (w + 1) (by omega) (by omega) hnd')
    | dec => exact absurd rfl hop
    | readOp =>
      have hne : w ≠ 0 := by omega
      have hland : w &&& wait_free_zero_sticky_counter.zeroBit = 2 ^ 63 := by
        show w &&& 2 ^ 63 = 2 ^ 63
        rw [land_pow63 w hw, if_pos h63]
      have hbne : ((2 : Nat) ^ 63 != 0) = true := by decide
      simp only [runOut, wfStep, wait_free_zero_sticky_counter.read, hne,
                 if_neg hne, hland, hbne, if_pos rfl, stuckOut, List.map_cons]
      exact congrArg (List.cons _) (ih w h63 (by omega) hnd')

/-- A `WaitFreeZeroStickyCounter::read` that returns 0 leaves the word
latched: the post-state has the ZERO flag (bit 63) set and stays in 64-bit
range. -/
theorem wf_read_zero_latched (w : Nat) (hw : w < UMOD)
    (h0 : (wait_free_zero_sticky_counter.read w).1 = 0) :
    2 ^ 63 ≤ (wait_free_zero_sticky_counter.read w).2 ∧
    (wait_free_zero_sticky_counter.read w).2 < UMOD := by
  by_cases hz : w = 0
  · subst hz
    exact ⟨by decide, by decide⟩
  · have hstate : (wait_free_zero_sticky_counter.read w).2 = w := by
      unfold wait_free_zero_sticky_counter.read
      rw [if_neg hz]
      split <;> rfl
    rw [hstate]
    refine ⟨?_, hw⟩
    by_contra hlt
    have hland : w &&& wait_free_zero_sticky_counter.zeroBit = 0 := by
      show w &&& 2 ^ 63 = 0
      rw [land_pow63 w hw, if_neg hlt]
    have hres : (wait_free_zero_sticky_counter.read w).1 = w := by
      unfold wait_free_zero_sticky_counter.read
      rw [if_neg hz]
      simp [hland]
    rw [hres] at h0
    exact hz h0

/-- Claim C4 (amended): for both sticky counters, once `read()` has
returned 0, every subsequent `read()` returns 0 and every subsequent
`incrementIfNotZero()` returns false, provided `decrement()` is not called
after that point and the following operations are too few to overflow the
64-bit word (for the lock-free counter no bound is needed; for the
wait-free counter the word-plus-operation-count must stay below
`2 ^ 64`, which holds for any realistic sequence of fewer than `2 ^ 62`
operations). -/
theorem sticky_counters_latched_stay_zero (s w : Nat) (ops : List COp)
    (hnd : COp.dec ∉ ops)
    (hs : zero_sticky_counter.read s = 0)
    (hw : w < UMOD)
    (h0 : (wait_free_zero_sticky_counter.read w).1 = 0)
    (hb : (wait_free_zero_sticky_counter.read w).2 + ops.length < UMOD) :
    runOut lfStep s ops = ops.map stuckOut ∧
    runOut wfStep (wait_free_zero_sticky_counter.read w).2 ops =
      ops.map stuckOut := by
  have hs0 : s = 0 := hs
  subst hs0
  obtain ⟨h63, _⟩ := wf_read_zero_latched w hw h0
  exact ⟨lf_latched_stuck ops hnd, wf_latched_stuck ops _ h63 hb hnd⟩

/-- Witness for C4 at the latched states 0 (lock-free) and `2 ^ 63`
(wait-free, the word left by a latching decrement), running an increment
followed by a read. -/
theorem sticky_counters_latched_stay_zero_witness :
    runOut lfStep 0 [.inc, .readOp] = [COp.inc, COp.readOp].map stuckOut ∧
    runOut wfStep (wait_free_zero_sticky_counter.read (2 ^ 63)).2
        [.inc, .readOp] = [COp.inc, COp.readOp].map stuckOut :=
  sticky_counters_latched_stay_zero 0 (2 ^ 63) [.inc, .readOp]
    (by decide) rfl (by decide) (by decide) (by decide)
